import Mathlib

/-!
Verification development for the source-location and buffer-management
subsystem of the slang compiler front end (`SourceManager`).

The data model (`FileData`, `FileInfo`, `ExpansionInfo`, `LineDirectiveInfo`,
the registry `bufferEntries` as a vector of a two-variant tagged union) is
embedded from the C++ header `SourceManager.h`.  The implementation file with
the method bodies is not part of the sources available here, so each method
body is modelled from the specification's description of its behaviour; the
doc comment of every such definition says so explicitly.

Machine integers (`size_t`, `uint32_t`) are modelled as `Nat`: no arithmetic
in this subsystem relies on wraparound (offsets and line numbers are sizes of
actual buffers).  `std::error_code` results are modelled with `Except`/`Option`.
Reference identity of `FileData` records is modelled by storing the records in
an indexed store and comparing indices.
-/

namespace Slang

/-- SourceLocation: an immutable value pairing a BufferID (a small integer
identity, 0 reserved as "no buffer") with a byte offset within that buffer.
Embedded from `slang/text/SourceLocation.h` as described by the spec's data
model. -/
structure SourceLocation where
  buffer : Nat
  offset : Nat
deriving DecidableEq, Repr

/-- The distinguished "no location" sentinel value (buffer 0, offset 0). -/
def SourceLocation.NoLocation : SourceLocation := ⟨0, 0⟩

/-- SourceRange: a pair of start and end locations.  No invariant relates the
two buffers at this layer. -/
structure SourceRange where
  startLoc : SourceLocation
  endLoc : SourceLocation
deriving DecidableEq, Repr

/-- LineDirectiveInfo, embedded from the private struct in `SourceManager.h`:
file name set by the directive, the actual (raw) file line where the directive
occurred, the line number set by the directive, and the directive level
(0, 1, or 2). -/
structure LineDirectiveInfo where
  name : String
  lineInFile : Nat
  lineOfDirective : Nat
  level : Nat
deriving DecidableEq, Repr

/-- FileData, embedded from the private struct in `SourceManager.h`: the file
name, the raw byte contents, and the full path.  (The C++ struct also caches
computed line offsets and a parent-directory pointer; the line-offset cache is
modelled by recomputation from `mem`.)  There is only one FileData per loaded
file; reference identity is modelled by an index into the manager's store. -/
structure FileData where
  name : String
  mem : List Char
  fullPath : String
deriving DecidableEq, Repr

/-- FileInfo, embedded from the private struct in `SourceManager.h`: a
reference to a FileData (here: its index in the store), an optional owning
library, the location from which this file was included
(`SourceLocation.NoLocation` for root files), and the ordered list of line
directives recorded in this buffer.  The header notes there can be many
FileInfos for a given file. -/
structure FileInfo where
  data : Nat
  library : Option Nat
  includedFrom : SourceLocation
  lineDirectives : List LineDirectiveInfo
deriving DecidableEq, Repr

/-- ExpansionInfo, embedded from the private struct in `SourceManager.h`: for
an ordinary macro body expansion `originalLoc` points inside the macro
definition and `expansionRange` spans the invocation site; for an argument
substitution `originalLoc` points at the argument at the invocation site and
`expansionRange` spans the parameter inside the macro body.  `isMacroArg`
discriminates the two senses; `macroName` is empty for anonymous entries
(the C++ `string_view` member defaults to empty). -/
structure ExpansionInfo where
  originalLoc : SourceLocation
  expansionRange : SourceRange
  isMacroArg : Bool
  macroName : String
deriving DecidableEq, Repr

/-- One registry entry: the `std::variant<FileInfo, ExpansionInfo>` element
type of `bufferEntries` in `SourceManager.h`. -/
inductive BufferEntry where
  | file (fi : FileInfo)
  | expansion (ei : ExpansionInfo)
deriving DecidableEq, Repr

/-- The SourceManager state, embedded from the private data members of
`SourceManager.h`: the append-only registry `bufferEntries` indexed by
BufferID, the file-lookup cache keyed by full path (holding the FileData
records; here the records live in `fileDatas` and the cache maps a path to an
index, modelling the C++ `unique_ptr` ownership and reference identity), and
the ordered system/user include-directory lists.  Mutexes guard concurrency
only and have no sequential semantics, so they are not modelled. -/
structure SourceManager where
  bufferEntries : List BufferEntry
  fileDatas : List FileData
  lookupCache : List (String × Nat)
  systemDirectories : List String
  userDirectories : List String
  unnamedBufferCount : Nat
deriving DecidableEq, Repr

/-- The empty source manager (fresh registry, empty cache and directory
lists), corresponding to the default constructor. -/
def SourceManager.empty : SourceManager := ⟨[], [], [], [], [], 0⟩

/-- Association-list lookup used for the file cache and the modelled file
system: returns the value of the first pair whose key matches. -/
def lookupAssoc {α : Type} : List (String × α) → String → Option α
  | [], _ => Option.none
  | (k, v) :: rest, key => if k = key then Option.some v else lookupAssoc rest key

/-- Resolves a BufferID to its registry entry.  BufferID 0 is the "no buffer"
sentinel; live ids are 1 through `bufferEntries.length`, id `b` denoting the
entry at list position `b - 1` (ids are handed out monotonically as entries
are appended). -/
def SourceManager.getEntry (sm : SourceManager) (buffer : Nat) : Option BufferEntry :=
  if buffer = 0 then Option.none else sm.bufferEntries.get? (buffer - 1)

/-- Modelled from the spec: `getFileInfo` (private helper declared in the
header) resolves a BufferID to its FileInfo when the registry entry holds the
file variant, and nothing otherwise. -/
def SourceManager.getFileInfo (sm : SourceManager) (buffer : Nat) : Option FileInfo :=
  match sm.getEntry buffer with
  | Option.some (BufferEntry.file fi) => Option.some fi
  | _ => Option.none

/-- Modelled from the spec: resolves a BufferID to its ExpansionInfo when the
registry entry holds the expansion variant, and nothing otherwise. -/
def SourceManager.getExpansionInfo (sm : SourceManager) (buffer : Nat) : Option ExpansionInfo :=
  match sm.getEntry buffer with
  | Option.some (BufferEntry.expansion ei) => Option.some ei
  | _ => Option.none

/-- Looks up the FileData record referenced by a file buffer. -/
def SourceManager.getFileData (sm : SourceManager) (buffer : Nat) : Option FileData :=
  match sm.getFileInfo buffer with
  | Option.some fi => sm.fileDatas.get? fi.data
  | Option.none => Option.none

/-- Modelled from the spec: `isFileLoc` (body in the missing implementation
file) determines whether the given location exists in a source file, by
inspecting its buffer's registry-entry kind. -/
def SourceManager.isFileLoc (sm : SourceManager) (location : SourceLocation) : Bool :=
  (sm.getFileInfo location.buffer).isSome

/-- Modelled from the spec: `isMacroLoc` determines whether the given location
points to a macro expansion, by inspecting its buffer's registry-entry kind. -/
def SourceManager.isMacroLoc (sm : SourceManager) (location : SourceLocation) : Bool :=
  (sm.getExpansionInfo location.buffer).isSome

/-- Modelled from the spec: `isMacroArgLoc` determines whether the given
location points to a macro argument expansion, via the discriminator flag of
the owning expansion entry. -/
def SourceManager.isMacroArgLoc (sm : SourceManager) (location : SourceLocation) : Bool :=
  match sm.getExpansionInfo location.buffer with
  | Option.some ei => ei.isMacroArg
  | Option.none => false

/-- Modelled from the spec: `isIncludedFileLoc` determines whether the given
location is inside an include file, i.e. it is a file location whose buffer's
`includedFrom` location is not the "no location" sentinel. -/
def SourceManager.isIncludedFileLoc (sm : SourceManager) (location : SourceLocation) : Bool :=
  match sm.getFileInfo location.buffer with
  | Option.some fi => fi.includedFrom ≠ SourceLocation.NoLocation
  | Option.none => false

/-- Modelled from the spec: `isPreprocessedLoc` determines whether the given
location is from a macro expansion or an include file. -/
def SourceManager.isPreprocessedLoc (sm : SourceManager) (location : SourceLocation) : Bool :=
  sm.isMacroLoc location || sm.isIncludedFileLoc location

/-- Modelled from the spec: `getExpansionLoc` is one hop — if the location is
in a macro buffer it returns the start of that entry's `expansionRange`,
otherwise it returns the location unchanged. -/
def SourceManager.getExpansionLoc (sm : SourceManager) (location : SourceLocation) : SourceLocation :=
  match sm.getExpansionInfo location.buffer with
  | Option.some ei => ei.expansionRange.startLoc
  | Option.none => location

/-- Modelled from the spec: `getOriginalLoc` is one hop — it returns the
`originalLoc` of the owning expansion entry, or the location unchanged if it
is already a file location. -/
def SourceManager.getOriginalLoc (sm : SourceManager) (location : SourceLocation) : SourceLocation :=
  match sm.getExpansionInfo location.buffer with
  | Option.some ei => ei.originalLoc
  | Option.none => location

/-- Modelled from the spec: `getFullyOriginalLoc` repeatedly applies the
one-hop `getOriginalLoc` until reaching a file location.  The spec prescribes
an iterative loop with a maximum-hop guard for the chain walk; the guard is
the explicit `fuel` argument. -/
def SourceManager.getFullyOriginalLoc (sm : SourceManager) : Nat → SourceLocation → SourceLocation
  | 0, location => location
  | fuel + 1, location =>
    match sm.getExpansionInfo location.buffer with
    | Option.some ei => sm.getFullyOriginalLoc fuel ei.originalLoc
    | Option.none => location

/-- Modelled from the spec: `getFullyExpandedLoc` repeatedly applies the
one-hop `getExpansionLoc` until reaching a file location, with the same
maximum-hop guard. -/
def SourceManager.getFullyExpandedLoc (sm : SourceManager) : Nat → SourceLocation → SourceLocation
  | 0, location => location
  | fuel + 1, location =>
    match sm.getExpansionInfo location.buffer with
    | Option.some ei => sm.getFullyExpandedLoc fuel ei.expansionRange.startLoc
    | Option.none => location

/-- Modelled from the spec: `getMacroName` returns the macro name stored in
the expansion entry that immediately owns the location's buffer (empty for
anonymous argument-substitution entries, whose stored name is empty), and an
empty string when no macro name can be found. -/
def SourceManager.getMacroName (sm : SourceManager) (location : SourceLocation) : String :=
  match sm.getExpansionInfo location.buffer with
  | Option.some ei => ei.macroName
  | Option.none => ""

/-- Modelled from the spec: `getFullPath` returns the full path of the given
source buffer, not taking `line` directives into account; per the header's
doc comment, if the buffer is not a file buffer it returns an empty string. -/
def SourceManager.getFullPath (sm : SourceManager) (buffer : Nat) : String :=
  match sm.getFileData buffer with
  | Option.some fd => fd.fullPath
  | Option.none => ""

/-! ## Buffer creation, the file content store, and include resolution -/

/-- The modelled file system, the external collaborator for byte loading and
directory discovery: a map from full path to file contents and the set of
existing directories. -/
structure FileSystem where
  files : List (String × List Char)
  dirs : List String
deriving DecidableEq, Repr

/-- Reads a file's bytes from the modelled file system, failing when the path
does not name a file. -/
def FileSystem.readFile (fs : FileSystem) (path : String) : Option (List Char) :=
  lookupAssoc fs.files path

/-- Tests whether the path names an existing file in the modelled file
system. -/
def FileSystem.fileExists (fs : FileSystem) (path : String) : Bool :=
  (lookupAssoc fs.files path).isSome

/-- Modelled from the spec: `createBufferEntry` (private helper declared in
the header) appends one entry to the registry and returns the fresh,
never-before-used BufferID of that entry, handed out monotonically. -/
def SourceManager.createBufferEntry (sm : SourceManager) (entry : BufferEntry) :
    SourceManager × Nat :=
  ({ sm with bufferEntries := sm.bufferEntries ++ [entry] }, sm.bufferEntries.length + 1)

/-- Modelled from the spec: the two `createExpansionLoc` overloads create a
macro expansion registry entry and return a location at offset 0 of the fresh
buffer.  The flag overload leaves the macro name empty (anonymous argument
substitution); the named overload records the macro name. -/
def SourceManager.createExpansionLoc (sm : SourceManager) (originalLoc : SourceLocation)
    (expansionRange : SourceRange) (isMacroArg : Bool) (macroName : String) :
    SourceManager × SourceLocation :=
  let r := sm.createBufferEntry (BufferEntry.expansion
    ⟨originalLoc, expansionRange, isMacroArg, macroName⟩)
  (r.1, ⟨r.2, 0⟩)

/-- Result of a load operation: the updated manager, the BufferID on success,
and the number of storage accesses the operation performed. -/
structure LoadResult where
  sm : SourceManager
  buffer : Option Nat
  diskReads : Nat
deriving DecidableEq, Repr

/-- Modelled from the spec: `openCached` looks the canonical full path up in
the file cache; on a hit it returns the previously cached FileData without
touching storage, on a miss it reads the file from storage, caches the new
FileData, and in either successful case appends one fresh registry entry
referencing that FileData (loading is content-addressed by canonical full
path; each successful load still allocates exactly one new BufferID). -/
def SourceManager.openCached (sm : SourceManager) (fs : FileSystem) (fullPath : String)
    (includedFrom : SourceLocation) (library : Option Nat) : LoadResult :=
  match lookupAssoc sm.lookupCache fullPath with
  | Option.some fdIndex =>
    let r := sm.createBufferEntry (BufferEntry.file ⟨fdIndex, library, includedFrom, []⟩)
    ⟨r.1, Option.some r.2, 0⟩
  | Option.none =>
    match fs.readFile fullPath with
    | Option.some contents =>
      let fdIndex := sm.fileDatas.length
      let sm' := { sm with
        fileDatas := sm.fileDatas ++ [(⟨fullPath, contents, fullPath⟩ : FileData)],
        lookupCache := sm.lookupCache ++ [(fullPath, fdIndex)] }
      let r := sm'.createBufferEntry (BufferEntry.file ⟨fdIndex, library, includedFrom, []⟩)
      ⟨r.1, Option.some r.2, 1⟩
    | Option.none => ⟨sm, Option.none, 1⟩

/-- Modelled from the spec: `readSource` reads a source file from disk through
the content-addressed cache.  Canonicalisation of the path is the identity in
this model (paths are taken to be already canonical). -/
def SourceManager.readSource (sm : SourceManager) (fs : FileSystem) (path : String)
    (library : Option Nat) : LoadResult :=
  sm.openCached fs path SourceLocation.NoLocation library

/-- Modelled from the spec: `assignText` copies text already in memory into a
fresh FileData (bypassing storage entirely, so nothing is entered in the
file-lookup cache, which is keyed by on-disk paths) and appends one fresh
registry entry for it. -/
def SourceManager.assignText (sm : SourceManager) (path : String) (text : List Char)
    (includedFrom : SourceLocation) (library : Option Nat) : SourceManager × Nat :=
  let fdIndex := sm.fileDatas.length
  let sm' := { sm with fileDatas := sm.fileDatas ++ [(⟨path, text, path⟩ : FileData)] }
  sm'.createBufferEntry (BufferEntry.file ⟨fdIndex, library, includedFrom, []⟩)

/-- Joins a directory and a header name into a full path. -/
def joinPath (dir name : String) : String := dir ++ "/" ++ name

/-- Modelled from the spec: tries each directory of the list in order and
returns the full path within the first directory in which the header name
names an existing file. -/
def searchDirs (fs : FileSystem) (name : String) : List String → Option String
  | [] => Option.none
  | d :: rest =>
    if fs.fileExists (joinPath d name) then Option.some (joinPath d name)
    else searchDirs fs name rest

/-- Modelled from the spec: the resolution step of `readHeader` resolves a
header name by first trying each directory in the extra include-path list,
then the system directory list when `isSystemPath` is set and the user
directory list otherwise (each in registration order, first match wins), and
fails only after all directories have been tried.  Actual byte loading of the
resolved path is delegated to `openCached`. -/
def SourceManager.findHeaderPath (sm : SourceManager) (fs : FileSystem) (name : String)
    (isSystemPath : Bool) (additionalIncludePaths : List String) : Option String :=
  match searchDirs fs name additionalIncludePaths with
  | Option.some p => Option.some p
  | Option.none =>
    searchDirs fs name (if isSystemPath then sm.systemDirectories else sm.userDirectories)

/-- Modelled from the spec: `readHeader` resolves the header name against the
directory lists and loads the resolved path through the content store,
returning an error when no directory contains the header. -/
def SourceManager.readHeader (sm : SourceManager) (fs : FileSystem) (name : String)
    (includedFrom : SourceLocation) (library : Option Nat) (isSystemPath : Bool)
    (additionalIncludePaths : List String) : LoadResult :=
  match sm.findHeaderPath fs name isSystemPath additionalIncludePaths with
  | Option.some p => sm.openCached fs p includedFrom library
  | Option.none => ⟨sm, Option.none, 0⟩

/-! ## Include directory registration -/

/-- Modelled from the spec: tests whether a registration pattern is a
glob-style pattern (contains a wildcard) rather than an exact path. -/
def hasWildcards (pattern : String) : Bool :=
  pattern.toList.any fun c => c = '*' || c = '?'

/-- Modelled from the spec: shell-glob-style matching of a pattern against a
path, where `*` matches any (possibly empty) run of characters and `?`
matches exactly one character; all other characters match themselves. -/
def globMatch : List Char → List Char → Bool
  | [], s => s.isEmpty
  | '*' :: ps, s =>
    globMatch ps s ||
      (match s with
       | [] => false
       | _ :: cs => globMatch ('*' :: ps) cs)
  | '?' :: ps, s =>
    (match s with
     | [] => false
     | _ :: cs => globMatch ps cs)
  | c :: ps, s =>
    (match s with
     | [] => false
     | c' :: cs => c = c' && globMatch ps cs)
termination_by p s => (p.length, s.length)

/-- Modelled from the spec: registers one directory in an ordered list,
de-duplicated so that repeated registration keeps the first registration's
position (the list is backed by a uniquifying set in the C++ header). -/
def addDirectory (dirs : List String) (d : String) : List String :=
  if d ∈ dirs then dirs else dirs ++ [d]

/-- Modelled from the spec: the common body of `addSystemDirectories` and
`addUserDirectories`.  A glob-style pattern is expanded against the file
system's directories and contributes every match (possibly none, which is not
an error); an exact path that does not exist or is not a directory fails with
a descriptive error, and an existing exact directory is registered. -/
def addDirectoriesImpl (fs : FileSystem) (pattern : String) (dirs : List String) :
    Except String (List String) :=
  if hasWildcards pattern then
    Except.ok ((fs.dirs.filter fun d => globMatch pattern.toList d.toList).foldl addDirectory dirs)
  else if fs.dirs.contains pattern then Except.ok (addDirectory dirs pattern)
  else Except.error ("no such directory: " ++ pattern)

/-- Modelled from the spec: `addSystemDirectories` adds the system include
directories matching the pattern, returning an error code exactly as
`addDirectoriesImpl` does. -/
def SourceManager.addSystemDirectories (sm : SourceManager) (fs : FileSystem)
    (pattern : String) : Except String SourceManager :=
  match addDirectoriesImpl fs pattern sm.systemDirectories with
  | Except.ok dirs => Except.ok { sm with systemDirectories := dirs }
  | Except.error e => Except.error e

/-- Modelled from the spec: `addUserDirectories` adds the user include
directories matching the pattern, returning an error code exactly as
`addDirectoriesImpl` does. -/
def SourceManager.addUserDirectories (sm : SourceManager) (fs : FileSystem)
    (pattern : String) : Except String SourceManager :=
  match addDirectoriesImpl fs pattern sm.userDirectories with
  | Except.ok dirs => Except.ok { sm with userDirectories := dirs }
  | Except.error e => Except.error e

/-! ## Line numbers, line directives, and file names -/

/-- Modelled from the spec: the raw (physical) line number of a byte offset,
1-based, as computed by binary search over the cached line-start offsets:
the line containing an offset is one more than the number of line breaks
strictly before it. -/
def rawLineOfOffset (mem : List Char) (offset : Nat) : Nat :=
  1 + ((mem.take offset).filter fun c => c = '\n').length

/-- Modelled from the spec: `getRawLineNumber` computes the physical line of
a file location, ignoring `line` directives (0 when the location is not in a
live file buffer). -/
def SourceManager.getRawLineNumber (sm : SourceManager) (location : SourceLocation) : Nat :=
  match sm.getFileData location.buffer with
  | Option.some fd => rawLineOfOffset fd.mem location.offset
  | Option.none => 0

/-- Modelled from the spec: `getPreviousLineDirective` (declared in the
header) returns the line directive nearest before the given raw line number —
among the recorded directives whose `lineInFile` is strictly before the raw
line, the one with the greatest `lineInFile` — or nothing when there is
none. -/
def getPreviousLineDirective (directives : List LineDirectiveInfo) (rawLineNumber : Nat) :
    Option LineDirectiveInfo :=
  match directives with
  | [] => Option.none
  | d :: rest =>
    if d.lineInFile < rawLineNumber then
      match getPreviousLineDirective rest rawLineNumber with
      | Option.some b => if d.lineInFile < b.lineInFile then Option.some b else Option.some d
      | Option.none => Option.some d
    else getPreviousLineDirective rest rawLineNumber

/-- Modelled from the spec: `getLineNumber` computes the raw line of the
location, then reports `lineOfDirective + (rawLine - lineInFile)` from the
nearest preceding line directive when one exists, and the raw line unchanged
otherwise. -/
def SourceManager.getLineNumber (sm : SourceManager) (location : SourceLocation) : Nat :=
  let rawLine := sm.getRawLineNumber location
  match sm.getFileInfo location.buffer with
  | Option.some fi =>
    match getPreviousLineDirective fi.lineDirectives rawLine with
    | Option.some d => d.lineOfDirective + (rawLine - d.lineInFile)
    | Option.none => rawLine
  | Option.none => rawLine

/-- Modelled from the spec: `getFileName` reports the file name asserted by
the nearest preceding line directive when one exists, and the physical file
name otherwise (empty for non-file buffers). -/
def SourceManager.getFileName (sm : SourceManager) (location : SourceLocation) : String :=
  let rawLine := sm.getRawLineNumber location
  match sm.getFileInfo location.buffer, sm.getFileData location.buffer with
  | Option.some fi, Option.some fd =>
    match getPreviousLineDirective fi.lineDirectives rawLine with
    | Option.some d => d.name
    | Option.none => fd.name
  | _, _ => ""

/-- The index of the FileData record referenced by a file buffer: the
modelled notion of reference identity for the C++ `FileData*` pointer held by
a FileInfo (two buffers reference the identical FileData record exactly when
their indices agree). -/
def SourceManager.bufferFileDataIndex (sm : SourceManager) (b : Nat) : Option Nat :=
  match sm.getFileInfo b with
  | Option.some fi => Option.some fi.data
  | Option.none => Option.none

/-! ## The expansion-chain invariant -/

/-- Modelled from the spec: the acyclicity invariant on expansion chains.
Scanning the registry with `k` the list position of the head entry, every
expansion entry may refer — through `originalLoc` and the start of
`expansionRange` — only to live buffers created strictly before it (BufferIDs
from 1 up to its own list position).  This is the registry shape produced by
`createExpansionLoc`, whose argument locations can only mention already
registered buffers. -/
def entriesWF : Nat → List BufferEntry → Bool
  | _, [] => true
  | k, BufferEntry.file _ :: rest => entriesWF (k + 1) rest
  | k, BufferEntry.expansion ei :: rest =>
    decide (1 ≤ ei.originalLoc.buffer) && decide (ei.originalLoc.buffer ≤ k) &&
    decide (1 ≤ ei.expansionRange.startLoc.buffer) &&
    decide (ei.expansionRange.startLoc.buffer ≤ k) &&
    entriesWF (k + 1) rest

/-- The invariant instantiated on a manager's whole registry. -/
def SourceManager.wf (sm : SourceManager) : Bool := entriesWF 0 sm.bufferEntries

/-! ## Concrete sample states used to witness the theorems -/

/-- A sample FileData record. -/
def fdA : FileData := ⟨"a.sv", ['m'], "/a.sv"⟩

/-- A manager holding a single root file buffer. -/
def smFile : SourceManager :=
  ⟨[BufferEntry.file ⟨0, Option.none, SourceLocation.NoLocation, []⟩],
   [fdA], [("/a.sv", 0)], [], [], 0⟩

/-- A manager with a two-deep macro expansion chain on top of a file buffer:
buffer 2 is a named macro expansion written in buffer 1, buffer 3 an
anonymous argument substitution written in buffer 2. -/
def smChain : SourceManager :=
  ⟨[BufferEntry.file ⟨0, Option.none, SourceLocation.NoLocation, []⟩,
    BufferEntry.expansion ⟨⟨1, 0⟩, ⟨⟨1, 1⟩, ⟨1, 2⟩⟩, false, "M"⟩,
    BufferEntry.expansion ⟨⟨2, 0⟩, ⟨⟨2, 1⟩, ⟨2, 2⟩⟩, true, ""⟩],
   [fdA], [("/a.sv", 0)], [], [], 0⟩

/-- A manager whose second file buffer was included from a location in the
first. -/
def smIncluded : SourceManager :=
  ⟨[BufferEntry.file ⟨0, Option.none, SourceLocation.NoLocation, []⟩,
    BufferEntry.file ⟨0, Option.none, ⟨1, 5⟩, []⟩],
   [fdA], [("/a.sv", 0)], [], [], 0⟩

/-- A FileData whose buffer has eleven line breaks, so byte offset 11 sits on
raw line 12. -/
def fdLines : FileData := ⟨"phys.sv", List.replicate 11 '\n' ++ ['x'], "/phys.sv"⟩

/-- A manager holding that file with a `line 100 "renamed.sv" 1` directive
recorded on raw line 10. -/
def smLineDir : SourceManager :=
  ⟨[BufferEntry.file ⟨0, Option.none, SourceLocation.NoLocation,
      [⟨"renamed.sv", 10, 100, 1⟩]⟩],
   [fdLines], [("/phys.sv", 0)], [], [], 0⟩

/-- A sample file system with one source file, one header under `/inc`, and
two directories. -/
def fsSample : FileSystem :=
  ⟨[("/a.sv", ['m']), ("/inc/foo.svh", ['h'])], ["/inc", "/other"]⟩

/-- A manager with one registered user include directory and no system
directories. -/
def smDirs : SourceManager := ⟨[], [], [], [], ["/inc"], 0⟩

/-! ## Helper lemmas about registry lookup and the chain invariant -/

theorem getExpansionInfo_eq_some_iff (sm : SourceManager) (b : Nat) (ei : ExpansionInfo) :
    sm.getExpansionInfo b = Option.some ei ↔
      sm.getEntry b = Option.some (BufferEntry.expansion ei) := by
  unfold SourceManager.getExpansionInfo
  cases h : sm.getEntry b with
  | none => simp
  | some e => cases e <;> simp

theorem getFileInfo_eq_some_iff (sm : SourceManager) (b : Nat) (fi : FileInfo) :
    sm.getFileInfo b = Option.some fi ↔
      sm.getEntry b = Option.some (BufferEntry.file fi) := by
  unfold SourceManager.getFileInfo
  cases h : sm.getEntry b with
  | none => simp
  | some e => cases e <;> simp

theorem getEntry_isSome_of_live (sm : SourceManager) (b : Nat) (h1 : 1 ≤ b)
    (h2 : b ≤ sm.bufferEntries.length) : (sm.getEntry b).isSome = true := by
  unfold SourceManager.getEntry
  rw [if_neg (by omega)]
  have hlt : b - 1 < sm.bufferEntries.length := by omega
  rw [List.get?_eq_get hlt]
  rfl

theorem isFileLoc_of_live_not_expansion (sm : SourceManager) (loc : SourceLocation)
    (h1 : 1 ≤ loc.buffer) (h2 : loc.buffer ≤ sm.bufferEntries.length)
    (he : sm.getExpansionInfo loc.buffer = Option.none) :
    sm.isFileLoc loc = true := by
  have hs := getEntry_isSome_of_live sm loc.buffer h1 h2
  unfold SourceManager.isFileLoc SourceManager.getFileInfo
  cases hent : sm.getEntry loc.buffer with
  | none => rw [hent] at hs; exact absurd hs (by simp)
  | some e =>
    cases e with
    | file fi => simp
    | expansion ei =>
      rw [(getExpansionInfo_eq_some_iff sm loc.buffer ei).mpr hent] at he
      exact absurd he (by simp)

theorem entriesWF_lookup (l : List BufferEntry) :
    ∀ (k i : Nat) (ei : ExpansionInfo),
      entriesWF k l = true → l.get? i = Option.some (BufferEntry.expansion ei) →
      1 ≤ ei.originalLoc.buffer ∧ ei.originalLoc.buffer ≤ k + i ∧
      1 ≤ ei.expansionRange.startLoc.buffer ∧ ei.expansionRange.startLoc.buffer ≤ k + i := by
  induction l with
  | nil => intro k i ei _ hg; exact Option.noConfusion hg
  | cons e rest ih =>
    intro k i ei hw hg
    have hw' : entriesWF (k + 1) rest = true := by
      cases e with
      | file fi => unfold entriesWF at hw; exact hw
      | expansion ei' =>
        unfold entriesWF at hw
        simp at hw
        tauto
    cases i with
    | zero =>
      rw [List.get?_cons_zero] at hg
      injection hg with hg
      subst hg
      unfold entriesWF at hw
      simp at hw
      omega
    | succ j =>
      rw [List.get?_cons_succ] at hg
      have := ih (k + 1) j ei hw' hg
      omega

theorem wf_expansion_bounds (sm : SourceManager) (hwf : sm.wf = true) (b : Nat)
    (ei : ExpansionInfo) (hb : sm.getEntry b = Option.some (BufferEntry.expansion ei)) :
    (1 ≤ ei.originalLoc.buffer ∧ ei.originalLoc.buffer < b ∧
      ei.originalLoc.buffer ≤ sm.bufferEntries.length) ∧
    (1 ≤ ei.expansionRange.startLoc.buffer ∧ ei.expansionRange.startLoc.buffer < b ∧
      ei.expansionRange.startLoc.buffer ≤ sm.bufferEntries.length) := by
  unfold SourceManager.getEntry at hb
  by_cases hb0 : b = 0
  · rw [if_pos hb0] at hb; exact absurd hb (by simp)
  · rw [if_neg hb0] at hb
    have hlen : b - 1 < sm.bufferEntries.length := by
      by_contra hc
      push_neg at hc
      rw [List.get?_len_le hc] at hb
      exact absurd hb (by simp)
    have := entriesWF_lookup sm.bufferEntries 0 (b - 1) ei hwf hb
    omega

theorem getFullyOriginalLoc_isFileLoc (sm : SourceManager) (hwf : sm.wf = true) :
    ∀ (fuel : Nat) (loc : SourceLocation), 1 ≤ loc.buffer →
      loc.buffer ≤ sm.bufferEntries.length → loc.buffer ≤ fuel →
      sm.isFileLoc (sm.getFullyOriginalLoc fuel loc) = true := by
  intro fuel
  induction fuel with
  | zero => intro loc h1 _ h3; omega
  | succ f ih =>
    intro loc h1 h2 h3
    unfold SourceManager.getFullyOriginalLoc
    cases he : sm.getExpansionInfo loc.buffer with
    | none => exact isFileLoc_of_live_not_expansion sm loc h1 h2 he
    | some ei =>
      have hb := wf_expansion_bounds sm hwf loc.buffer ei
        ((getExpansionInfo_eq_some_iff sm loc.buffer ei).mp he)
      exact ih ei.originalLoc hb.1.1 hb.1.2.2 (by omega)

theorem getFullyExpandedLoc_isFileLoc (sm : SourceManager) (hwf : sm.wf = true) :
    ∀ (fuel : Nat) (loc : SourceLocation), 1 ≤ loc.buffer →
      loc.buffer ≤ sm.bufferEntries.length → loc.buffer ≤ fuel →
      sm.isFileLoc (sm.getFullyExpandedLoc fuel loc) = true := by
  intro fuel
  induction fuel with
  | zero => intro loc h1 _ h3; omega
  | succ f ih =>
    intro loc h1 h2 h3
    unfold SourceManager.getFullyExpandedLoc
    cases he : sm.getExpansionInfo loc.buffer with
    | none => exact isFileLoc_of_live_not_expansion sm loc h1 h2 he
    | some ei =>
      have hb := wf_expansion_bounds sm hwf loc.buffer ei
        ((getExpansionInfo_eq_some_iff sm loc.buffer ei).mp he)
      exact ih ei.expansionRange.startLoc hb.2.1 hb.2.2.2 (by omega)

theorem getFullyOriginalLoc_stable (sm : SourceManager) (hwf : sm.wf = true) :
    ∀ (f1 f2 : Nat) (loc : SourceLocation), 1 ≤ loc.buffer →
      loc.buffer ≤ sm.bufferEntries.length → loc.buffer ≤ f1 → loc.buffer ≤ f2 →
      sm.getFullyOriginalLoc f1 loc = sm.getFullyOriginalLoc f2 loc := by
  intro f1
  induction f1 with
  | zero => intro f2 loc h1 _ h3 _; omega
  | succ f ih =>
    intro f2 loc h1 h2 h3 h4
    cases f2 with
    | zero => omega
    | succ f2' =>
      unfold SourceManager.getFullyOriginalLoc
      cases he : sm.getExpansionInfo loc.buffer with
      | none => rfl
      | some ei =>
        have hb := wf_expansion_bounds sm hwf loc.buffer ei
          ((getExpansionInfo_eq_some_iff sm loc.buffer ei).mp he)
        exact ih f2' ei.originalLoc hb.1.1 hb.1.2.2 (by omega) (by omega)

theorem getFullyExpandedLoc_stable (sm : SourceManager) (hwf : sm.wf = true) :
    ∀ (f1 f2 : Nat) (loc : SourceLocation), 1 ≤ loc.buffer →
      loc.buffer ≤ sm.bufferEntries.length → loc.buffer ≤ f1 → loc.buffer ≤ f2 →
      sm.getFullyExpandedLoc f1 loc = sm.getFullyExpandedLoc f2 loc := by
  intro f1
  induction f1 with
  | zero => intro f2 loc h1 _ h3 _; omega
  | succ f ih =>
    intro f2 loc h1 h2 h3 h4
    cases f2 with
    | zero => omega
    | succ f2' =>
      unfold SourceManager.getFullyExpandedLoc
      cases he : sm.getExpansionInfo loc.buffer with
      | none => rfl
      | some ei =>
        have hb := wf_expansion_bounds sm hwf loc.buffer ei
          ((getExpansionInfo_eq_some_iff sm loc.buffer ei).mp he)
        exact ih f2' ei.expansionRange.startLoc hb.2.1 hb.2.2.2 (by omega) (by omega)

/-! ## Claim C1 -/

/-- C1: for every location whose BufferID refers to a live registry entry of
a registry whose expansion chains satisfy the acyclicity invariant, both
`getFullyOriginalLoc` and `getFullyExpandedLoc` terminate after a bounded
number of hops — any hop guard of at least the location's BufferID, which
bounds the expansion chain's nesting depth, yields the same result as the
guard equal to the BufferID — and both return a location for which
`isFileLoc` is true. -/
theorem claim_C1_full_resolution_terminates_at_file (sm : SourceManager)
    (loc : SourceLocation) (fuel : Nat) (hwf : sm.wf = true) (h1 : 1 ≤ loc.buffer)
    (h2 : loc.buffer ≤ sm.bufferEntries.length) (hfuel : loc.buffer ≤ fuel) :
    sm.isFileLoc (sm.getFullyOriginalLoc fuel loc) = true ∧
    sm.isFileLoc (sm.getFullyExpandedLoc fuel loc) = true ∧
    sm.getFullyOriginalLoc fuel loc = sm.getFullyOriginalLoc loc.buffer loc ∧
    sm.getFullyExpandedLoc fuel loc = sm.getFullyExpandedLoc loc.buffer loc :=
  ⟨getFullyOriginalLoc_isFileLoc sm hwf fuel loc h1 h2 hfuel,
   getFullyExpandedLoc_isFileLoc sm hwf fuel loc h1 h2 hfuel,
   getFullyOriginalLoc_stable sm hwf fuel loc.buffer loc h1 h2 hfuel (Nat.le_refl _),
   getFullyExpandedLoc_stable sm hwf fuel loc.buffer loc h1 h2 hfuel (Nat.le_refl _)⟩

/-- Witness for C1 on the concrete two-deep expansion chain. -/
theorem claim_C1_witness :
    smChain.wf = true ∧ 1 ≤ (3 : Nat) ∧ (3 : Nat) ≤ smChain.bufferEntries.length ∧
    (3 : Nat) ≤ 10 ∧
    (smChain.isFileLoc (smChain.getFullyOriginalLoc 10 ⟨3, 0⟩) = true ∧
     smChain.isFileLoc (smChain.getFullyExpandedLoc 10 ⟨3, 0⟩) = true ∧
     smChain.getFullyOriginalLoc 10 ⟨3, 0⟩ = smChain.getFullyOriginalLoc 3 ⟨3, 0⟩ ∧
     smChain.getFullyExpandedLoc 10 ⟨3, 0⟩ = smChain.getFullyExpandedLoc 3 ⟨3, 0⟩) :=
  ⟨by decide, by decide, by decide, by decide,
   claim_C1_full_resolution_terminates_at_file smChain ⟨3, 0⟩ 10 (by decide) (by decide)
     (by decide) (by decide)⟩

/-! ## Claim C6 -/

/-- C6: for every location for which `isFileLoc` is true, the one-hop
resolvers act as the identity: `getExpansionLoc` and `getOriginalLoc` both
return the location unchanged. -/
theorem claim_C6_one_hop_identity_on_file_locs (sm : SourceManager)
    (loc : SourceLocation) (h : sm.isFileLoc loc = true) :
    sm.getExpansionLoc loc = loc ∧ sm.getOriginalLoc loc = loc := by
  unfold SourceManager.getExpansionLoc SourceManager.getOriginalLoc
  cases he : sm.getExpansionInfo loc.buffer with
  | none => exact ⟨rfl, rfl⟩
  | some ei =>
    exfalso
    unfold SourceManager.isFileLoc SourceManager.getFileInfo at h
    rw [(getExpansionInfo_eq_some_iff sm loc.buffer ei).mp he] at h
    exact absurd h (by simp)

/-- Witness for C6 on the concrete single-file manager. -/
theorem claim_C6_witness :
    smFile.isFileLoc ⟨1, 0⟩ = true ∧
    (smFile.getExpansionLoc ⟨1, 0⟩ = ⟨1, 0⟩ ∧ smFile.getOriginalLoc ⟨1, 0⟩ = ⟨1, 0⟩) :=
  ⟨by decide, claim_C6_one_hop_identity_on_file_locs smFile ⟨1, 0⟩ (by decide)⟩

/-! ## Claim C8 -/

/-- C8: `getMacroName` returns the macro name stored in the expansion entry
that immediately owns the location's buffer, and an empty string in every
other case; entries created by the anonymous argument-substitution overload
of `createExpansionLoc` carry an empty name, and entries created by the named
overload carry the given name. -/
theorem claim_C8_macro_name_from_immediate_entry (sm : SourceManager)
    (loc : SourceLocation) (o : SourceLocation) (r : SourceRange) (n : String) :
    (∀ ei, sm.getExpansionInfo loc.buffer = Option.some ei →
      sm.getMacroName loc = ei.macroName) ∧
    (sm.getExpansionInfo loc.buffer = Option.none → sm.getMacroName loc = "") ∧
    ((sm.createExpansionLoc o r true "").1.getMacroName (sm.createExpansionLoc o r true "").2
      = "") ∧
    ((sm.createExpansionLoc o r false n).1.getMacroName (sm.createExpansionLoc o r false n).2
      = n) := by
  refine ⟨?_, ?_, ?_, ?_⟩
  · intro ei he
    unfold SourceManager.getMacroName
    rw [he]
  · intro he
    unfold SourceManager.getMacroName
    rw [he]
  · unfold SourceManager.createExpansionLoc SourceManager.createBufferEntry
      SourceManager.getMacroName SourceManager.getExpansionInfo SourceManager.getEntry
    simp
  · unfold SourceManager.createExpansionLoc SourceManager.createBufferEntry
      SourceManager.getMacroName SourceManager.getExpansionInfo SourceManager.getEntry
    simp

/-- Witness for C8 on the concrete expansion chain: buffer 2 carries the name
`M`, buffer 3 is an anonymous argument substitution, buffer 1 a file. -/
theorem claim_C8_witness :
    smChain.getMacroName ⟨2, 0⟩ = "M" ∧ smChain.getMacroName ⟨3, 0⟩ = "" ∧
    smChain.getMacroName ⟨1, 0⟩ = "" := by
  have h := claim_C8_macro_name_from_immediate_entry smChain ⟨2, 0⟩
    ⟨1, 0⟩ ⟨⟨1, 1⟩, ⟨1, 2⟩⟩ "M"
  have h3 := claim_C8_macro_name_from_immediate_entry smChain ⟨3, 0⟩
    ⟨1, 0⟩ ⟨⟨1, 1⟩, ⟨1, 2⟩⟩ "M"
  have h1 := claim_C8_macro_name_from_immediate_entry smChain ⟨1, 0⟩
    ⟨1, 0⟩ ⟨⟨1, 1⟩, ⟨1, 2⟩⟩ "M"
  refine ⟨h.1 ⟨⟨1, 0⟩, ⟨⟨1, 1⟩, ⟨1, 2⟩⟩, false, "M"⟩ (by decide), ?_, h1.2.1 (by decide)⟩
  exact h3.1 ⟨⟨2, 0⟩, ⟨⟨2, 1⟩, ⟨2, 2⟩⟩, true, ""⟩ (by decide)

/-! ## Claim C9 -/

/-- C9: for every BufferID referring to a macro-expansion entry rather than a
file entry, `getFullPath` returns an empty path rather than failing. -/
theorem claim_C9_full_path_empty_on_expansion_buffers (sm : SourceManager) (b : Nat)
    (ei : ExpansionInfo) (h : sm.getEntry b = Option.some (BufferEntry.expansion ei)) :
    sm.getFullPath b = "" := by
  unfold SourceManager.getFullPath SourceManager.getFileData SourceManager.getFileInfo
  rw [h]

/-- Witness for C9 on buffer 2 of the concrete expansion chain. -/
theorem claim_C9_witness :
    smChain.getEntry 2 =
      Option.some (BufferEntry.expansion ⟨⟨1, 0⟩, ⟨⟨1, 1⟩, ⟨1, 2⟩⟩, false, "M"⟩) ∧
    smChain.getFullPath 2 = "" :=
  ⟨by decide,
   claim_C9_full_path_empty_on_expansion_buffers smChain 2
     ⟨⟨1, 0⟩, ⟨⟨1, 1⟩, ⟨1, 2⟩⟩, false, "M"⟩ (by decide)⟩

/-! ## Claim C10 -/

/-- C10: `isPreprocessedLoc` is true exactly when `isMacroLoc` or
`isIncludedFileLoc` is, and `isIncludedFileLoc` holds exactly when the
location is a file location whose buffer's `includedFrom` location differs
from the "no location" sentinel. -/
theorem claim_C10_preprocessed_loc_decomposition (sm : SourceManager)
    (loc : SourceLocation) :
    (sm.isPreprocessedLoc loc = (sm.isMacroLoc loc || sm.isIncludedFileLoc loc)) ∧
    (sm.isIncludedFileLoc loc = true ↔
      ∃ fi, sm.getFileInfo loc.buffer = Option.some fi ∧
        fi.includedFrom ≠ SourceLocation.NoLocation) := by
  refine ⟨rfl, ?_⟩
  unfold SourceManager.isIncludedFileLoc
  cases hf : sm.getFileInfo loc.buffer with
  | none => simp
  | some fi => simp

/-- Witness for C10: the included file buffer of `smIncluded` is a
preprocessed location and decomposes as stated. -/
theorem claim_C10_witness :
    (smIncluded.isPreprocessedLoc ⟨2, 0⟩ =
      (smIncluded.isMacroLoc ⟨2, 0⟩ || smIncluded.isIncludedFileLoc ⟨2, 0⟩)) ∧
    (smIncluded.isIncludedFileLoc ⟨2, 0⟩ = true ↔
      ∃ fi, smIncluded.getFileInfo 2 = Option.some fi ∧
        fi.includedFrom ≠ SourceLocation.NoLocation) :=
  claim_C10_preprocessed_loc_decomposition smIncluded ⟨2, 0⟩

/-! ## Claim C2 -/

theorem getPreviousLineDirective_none (directives : List LineDirectiveInfo) (r : Nat)
    (h : getPreviousLineDirective directives r = Option.none) :
    ∀ d ∈ directives, ¬ d.lineInFile < r := by
  induction directives with
  | nil => intro d hd; exact absurd hd (by simp)
  | cons a rest ih =>
    unfold getPreviousLineDirective at h
    intro d hd
    by_cases ha : a.lineInFile < r
    · rw [if_pos ha] at h
      cases hr : getPreviousLineDirective rest r with
      | none => simp only [hr] at h; exact Option.noConfusion h
      | some b =>
        simp only [hr] at h
        by_cases hab : a.lineInFile < b.lineInFile
        · rw [if_pos hab] at h; exact Option.noConfusion h
        · rw [if_neg hab] at h; exact Option.noConfusion h
    · rw [if_neg ha] at h
      rcases List.mem_cons.mp hd with hda | hdr
      · subst hda; exact ha
      · exact ih h d hdr

theorem getPreviousLineDirective_some (directives : List LineDirectiveInfo) (r : Nat)
    (d : LineDirectiveInfo) (h : getPreviousLineDirective directives r = Option.some d) :
    d ∈ directives ∧ d.lineInFile < r ∧
      ∀ d' ∈ directives, d'.lineInFile < r → d'.lineInFile ≤ d.lineInFile := by
  induction directives generalizing d with
  | nil => exact Option.noConfusion h
  | cons a rest ih =>
    unfold getPreviousLineDirective at h
    by_cases ha : a.lineInFile < r
    · rw [if_pos ha] at h
      cases hr : getPreviousLineDirective rest r with
      | none =>
        simp only [hr] at h
        injection h with h
        subst h
        refine ⟨List.mem_cons_self _ _, ha, ?_⟩
        intro d' hd' hlt'
        rcases List.mem_cons.mp hd' with hda | hdr
        · subst hda; exact Nat.le_refl _
        · exact absurd hlt' (getPreviousLineDirective_none rest r hr d' hdr)
      | some b =>
        simp only [hr] at h
        have hb := ih b hr
        by_cases hab : a.lineInFile < b.lineInFile
        · rw [if_pos hab] at h
          injection h with h
          subst h
          refine ⟨List.mem_cons_of_mem _ hb.1, hb.2.1, ?_⟩
          intro d' hd' hlt'
          rcases List.mem_cons.mp hd' with hda | hdr
          · subst hda; exact Nat.le_of_lt hab
          · exact hb.2.2 d' hdr hlt'
        · rw [if_neg hab] at h
          injection h with h
          subst h
          refine ⟨List.mem_cons_self _ _, ha, ?_⟩
          intro d' hd' hlt'
          rcases List.mem_cons.mp hd' with hda | hdr
          · subst hda; exact Nat.le_refl _
          · exact Nat.le_trans (hb.2.2 d' hdr hlt') (Nat.le_of_not_lt hab)
    · rw [if_neg ha] at h
      have hd := ih d h
      refine ⟨List.mem_cons_of_mem _ hd.1, hd.2.1, ?_⟩
      intro d' hd' hlt'
      rcases List.mem_cons.mp hd' with hda | hdr
      · subst hda; exact absurd hlt' ha
      · exact hd.2.2 d' hdr hlt'

/-- C2: for a file location whose buffer records at least one line directive
on a raw line strictly before the location's raw line, `getLineNumber`
reports `lineOfDirective + (rawLine - lineInFile)` computed from the nearest
preceding directive by raw line number and `getFileName` reports that
directive's name; absent any preceding directive, the raw line number and the
physical file name are reported unchanged. -/
theorem claim_C2_line_directive_adjustment (sm : SourceManager) (loc : SourceLocation)
    (fi : FileInfo) (fd : FileData)
    (hfi : sm.getFileInfo loc.buffer = Option.some fi)
    (hfd : sm.getFileData loc.buffer = Option.some fd) :
    ((∃ d ∈ fi.lineDirectives, d.lineInFile < sm.getRawLineNumber loc) →
      ∃ d ∈ fi.lineDirectives,
        d.lineInFile < sm.getRawLineNumber loc ∧
        (∀ d' ∈ fi.lineDirectives, d'.lineInFile < sm.getRawLineNumber loc →
          d'.lineInFile ≤ d.lineInFile) ∧
        sm.getLineNumber loc = d.lineOfDirective + (sm.getRawLineNumber loc - d.lineInFile) ∧
        sm.getFileName loc = d.name) ∧
    ((∀ d ∈ fi.lineDirectives, ¬ d.lineInFile < sm.getRawLineNumber loc) →
      sm.getLineNumber loc = sm.getRawLineNumber loc ∧ sm.getFileName loc = fd.name) := by
  cases hp : getPreviousLineDirective fi.lineDirectives (sm.getRawLineNumber loc) with
  | none =>
    have hL : sm.getLineNumber loc = sm.getRawLineNumber loc := by
      simp only [SourceManager.getLineNumber, hfi, hp]
    have hN : sm.getFileName loc = fd.name := by
      simp only [SourceManager.getFileName, hfi, hfd, hp]
    constructor
    · intro hex
      rcases hex with ⟨d, hd, hlt⟩
      exact absurd hlt (getPreviousLineDirective_none _ _ hp d hd)
    · intro _; exact ⟨hL, hN⟩
  | some d =>
    have hd := getPreviousLineDirective_some _ _ d hp
    have hL : sm.getLineNumber loc =
        d.lineOfDirective + (sm.getRawLineNumber loc - d.lineInFile) := by
      simp only [SourceManager.getLineNumber, hfi, hp]
    have hN : sm.getFileName loc = d.name := by
      simp only [SourceManager.getFileName, hfi, hfd, hp]
    constructor
    · intro _
      exact ⟨d, hd.1, hd.2.1, hd.2.2, hL, hN⟩
    · intro hall
      exact absurd hd.2.1 (hall d hd.1)

/-- Witness for C2, realising the spec's scenario: a `line 100 "renamed.sv" 1`
directive recorded on raw line 10 makes the location at raw line 12 report
file `renamed.sv` and line 102. -/
theorem claim_C2_witness :
    smLineDir.getFileInfo 1 =
      Option.some ⟨0, Option.none, SourceLocation.NoLocation, [⟨"renamed.sv", 10, 100, 1⟩]⟩ ∧
    smLineDir.getFileData 1 = Option.some fdLines ∧
    smLineDir.getRawLineNumber ⟨1, 11⟩ = 12 ∧
    smLineDir.getLineNumber ⟨1, 11⟩ = 102 ∧
    smLineDir.getFileName ⟨1, 11⟩ = "renamed.sv" ∧
    ((∀ d ∈ [(⟨"renamed.sv", 10, 100, 1⟩ : LineDirectiveInfo)],
        ¬ d.lineInFile < smLineDir.getRawLineNumber ⟨1, 11⟩) →
      smLineDir.getLineNumber ⟨1, 11⟩ = smLineDir.getRawLineNumber ⟨1, 11⟩ ∧
      smLineDir.getFileName ⟨1, 11⟩ = fdLines.name) :=
  ⟨by decide, by decide, by decide, by decide, by decide,
   (claim_C2_line_directive_adjustment smLineDir ⟨1, 11⟩
     ⟨0, Option.none, SourceLocation.NoLocation, [⟨"renamed.sv", 10, 100, 1⟩]⟩ fdLines
     (by decide) (by decide)).2⟩

/-! ## Claims C3 and C5 -/

theorem lookupAssoc_append_of_none {α : Type} (l : List (String × α)) (p : String) (v : α)
    (h : lookupAssoc l p = Option.none) : lookupAssoc (l ++ [(p, v)]) p = Option.some v := by
  induction l with
  | nil => simp [lookupAssoc]
  | cons kv rest ih =>
    obtain ⟨k, w⟩ := kv
    simp only [List.cons_append, lookupAssoc] at h ⊢
    by_cases hk : k = p
    · rw [if_pos hk] at h; exact Option.noConfusion h
    · rw [if_neg hk] at h ⊢
      exact ih h

theorem bufferFileDataIndex_get (sm : SourceManager) (b : Nat) (fi : FileInfo)
    (h0 : b ≠ 0) (hg : sm.bufferEntries.get? (b - 1) = Option.some (BufferEntry.file fi)) :
    sm.bufferFileDataIndex b = Option.some fi.data := by
  unfold SourceManager.bufferFileDataIndex SourceManager.getFileInfo SourceManager.getEntry
  rw [if_neg h0, hg]

theorem readSource_cache_hit (sm : SourceManager) (fs : FileSystem) (p : String)
    (lib : Option Nat) (idx : Nat) (hc : lookupAssoc sm.lookupCache p = Option.some idx) :
    sm.readSource fs p lib =
      ⟨{ sm with bufferEntries := sm.bufferEntries ++
          [BufferEntry.file ⟨idx, lib, SourceLocation.NoLocation, []⟩] },
       Option.some (sm.bufferEntries.length + 1), 0⟩ := by
  unfold SourceManager.readSource SourceManager.openCached SourceManager.createBufferEntry
  rw [hc]

theorem readSource_cache_miss_found (sm : SourceManager) (fs : FileSystem) (p : String)
    (lib : Option Nat) (contents : List Char)
    (hc : lookupAssoc sm.lookupCache p = Option.none)
    (hf : fs.readFile p = Option.some contents) :
    sm.readSource fs p lib =
      ⟨{ sm with
          bufferEntries := sm.bufferEntries ++
            [BufferEntry.file ⟨sm.fileDatas.length, lib, SourceLocation.NoLocation, []⟩],
          fileDatas := sm.fileDatas ++ [(⟨p, contents, p⟩ : FileData)],
          lookupCache := sm.lookupCache ++ [(p, sm.fileDatas.length)] },
       Option.some (sm.bufferEntries.length + 1), 1⟩ := by
  unfold SourceManager.readSource SourceManager.openCached SourceManager.createBufferEntry
  rw [hc, hf]

theorem readSource_cache_miss_absent (sm : SourceManager) (fs : FileSystem) (p : String)
    (lib : Option Nat) (hc : lookupAssoc sm.lookupCache p = Option.none)
    (hf : fs.readFile p = Option.none) :
    sm.readSource fs p lib = ⟨sm, Option.none, 1⟩ := by
  unfold SourceManager.readSource SourceManager.openCached SourceManager.createBufferEntry
  rw [hc, hf]

/-- Counterexample to C3 as stated: loading the same path twice returns two
distinct buffer identities (each successful load appends a fresh registry
entry, as the header notes there can be many FileInfos for one file), so
"both loads return the same buffer identity" fails even though the second
load touches no storage and returns the identical FileData record. -/
theorem claim_C3_counterexample :
    (SourceManager.empty.readSource fsSample "/a.sv" Option.none).buffer = Option.some 1 ∧
    ((SourceManager.empty.readSource fsSample "/a.sv" Option.none).sm.readSource fsSample
        "/a.sv" Option.none).buffer = Option.some 2 ∧
    ((SourceManager.empty.readSource fsSample "/a.sv" Option.none).sm.readSource fsSample
        "/a.sv" Option.none).diskReads = 0 ∧
    (1 : Nat) ≠ 2 := by
  decide

/-- C3 amended: after a first successful load of a canonical path, a second
load of the same path performs no storage access and returns a FileData
reference identical to the first load's (same store index, hence same byte
content), but the second load returns a fresh buffer identity, strictly
greater than the first load's, rather than the same one. -/
theorem claim_C3_second_load_cached_filedata (sm : SourceManager) (fs : FileSystem)
    (p : String) (lib lib' : Option Nat) (b1 : Nat)
    (h1 : (sm.readSource fs p lib).buffer = Option.some b1) :
    ((sm.readSource fs p lib).sm.readSource fs p lib').diskReads = 0 ∧
    ∃ b2, ((sm.readSource fs p lib).sm.readSource fs p lib').buffer = Option.some b2 ∧
      b1 < b2 ∧
      ((sm.readSource fs p lib).sm.readSource fs p lib').sm.bufferFileDataIndex b2
        = ((sm.readSource fs p lib).sm.readSource fs p lib').sm.bufferFileDataIndex b1 ∧
      (((sm.readSource fs p lib).sm.readSource fs p lib').sm.bufferFileDataIndex b2).isSome
        = true := by
  cases hc : lookupAssoc sm.lookupCache p with
  | some idx =>
    have hr2 : (sm.readSource fs p lib).sm.readSource fs p lib' =
        ⟨{ sm with bufferEntries := (sm.bufferEntries ++
            [BufferEntry.file ⟨idx, lib, SourceLocation.NoLocation, []⟩]) ++
            [BufferEntry.file ⟨idx, lib', SourceLocation.NoLocation, []⟩] },
         Option.some ((sm.bufferEntries ++
            [BufferEntry.file ⟨idx, lib, SourceLocation.NoLocation, []⟩]).length + 1), 0⟩ := by
      rw [readSource_cache_hit sm fs p lib idx hc]
      exact readSource_cache_hit _ fs p lib' idx hc
    rw [readSource_cache_hit sm fs p lib idx hc] at h1
    have hb1 : b1 = sm.bufferEntries.length + 1 := by
      have h1' : Option.some (sm.bufferEntries.length + 1) = Option.some b1 := h1
      injection h1' with h1''
      exact h1''.symm
    subst hb1
    rw [hr2]
    have hgb1 : ((sm.bufferEntries ++
        [BufferEntry.file ⟨idx, lib, SourceLocation.NoLocation, []⟩]) ++
        [BufferEntry.file ⟨idx, lib', SourceLocation.NoLocation, []⟩]).get?
          (sm.bufferEntries.length + 1 - 1) =
        Option.some (BufferEntry.file ⟨idx, lib, SourceLocation.NoLocation, []⟩) := by
      rw [Nat.add_sub_cancel, List.get?_append (by simp)]
      exact List.get?_concat_length _ _
    have hgb2 : ((sm.bufferEntries ++
        [BufferEntry.file ⟨idx, lib, SourceLocation.NoLocation, []⟩]) ++
        [BufferEntry.file ⟨idx, lib', SourceLocation.NoLocation, []⟩]).get?
          ((sm.bufferEntries ++
            [BufferEntry.file ⟨idx, lib, SourceLocation.NoLocation, []⟩]).length + 1 - 1) =
        Option.some (BufferEntry.file ⟨idx, lib', SourceLocation.NoLocation, []⟩) := by
      rw [Nat.add_sub_cancel]
      exact List.get?_concat_length _ _
    refine ⟨rfl, (sm.bufferEntries ++
        [BufferEntry.file ⟨idx, lib, SourceLocation.NoLocation, []⟩]).length + 1, rfl,
      by simp only [List.length_append, List.length_singleton]; omega, ?_, ?_⟩
    · rw [bufferFileDataIndex_get _ _ ⟨idx, lib', SourceLocation.NoLocation, []⟩
          (by simp only [List.length_append, List.length_singleton]; omega) hgb2,
        bufferFileDataIndex_get _ _ ⟨idx, lib, SourceLocation.NoLocation, []⟩
          (by omega) hgb1]
    · rw [bufferFileDataIndex_get _ _ ⟨idx, lib', SourceLocation.NoLocation, []⟩
          (by simp only [List.length_append, List.length_singleton]; omega) hgb2]
      rfl
  | none =>
    cases hf : fs.readFile p with
    | some contents =>
      have hc2 : lookupAssoc (sm.lookupCache ++ [(p, sm.fileDatas.length)]) p =
          Option.some sm.fileDatas.length := lookupAssoc_append_of_none _ _ _ hc
      have hr2 : (sm.readSource fs p lib).sm.readSource fs p lib' =
          ⟨{ sm with
              bufferEntries := (sm.bufferEntries ++
                [BufferEntry.file
                  ⟨sm.fileDatas.length, lib, SourceLocation.NoLocation, []⟩]) ++
                [BufferEntry.file
                  ⟨sm.fileDatas.length, lib', SourceLocation.NoLocation, []⟩],
              fileDatas := sm.fileDatas ++ [(⟨p, contents, p⟩ : FileData)],
              lookupCache := sm.lookupCache ++ [(p, sm.fileDatas.length)] },
           Option.some ((sm.bufferEntries ++
              [BufferEntry.file
                ⟨sm.fileDatas.length, lib, SourceLocation.NoLocation, []⟩]).length + 1),
           0⟩ := by
        rw [readSource_cache_miss_found sm fs p lib contents hc hf]
        exact readSource_cache_hit _ fs p lib' sm.fileDatas.length hc2
      rw [readSource_cache_miss_found sm fs p lib contents hc hf] at h1
      have hb1 : b1 = sm.bufferEntries.length + 1 := by
        have h1' : Option.some (sm.bufferEntries.length + 1) = Option.some b1 := h1
        injection h1' with h1''
        exact h1''.symm
      subst hb1
      rw [hr2]
      have hgb1 : ((sm.bufferEntries ++
          [BufferEntry.file ⟨sm.fileDatas.length, lib, SourceLocation.NoLocation, []⟩]) ++
          [BufferEntry.file ⟨sm.fileDatas.length, lib', SourceLocation.NoLocation, []⟩]).get?
            (sm.bufferEntries.length + 1 - 1) =
          Option.some (BufferEntry.file
            ⟨sm.fileDatas.length, lib, SourceLocation.NoLocation, []⟩) := by
        rw [Nat.add_sub_cancel, List.get?_append (by simp)]
        exact List.get?_concat_length _ _
      have hgb2 : ((sm.bufferEntries ++
          [BufferEntry.file ⟨sm.fileDatas.length, lib, SourceLocation.NoLocation, []⟩]) ++
          [BufferEntry.file ⟨sm.fileDatas.length, lib', SourceLocation.NoLocation, []⟩]).get?
            ((sm.bufferEntries ++
              [BufferEntry.file
                ⟨sm.fileDatas.length, lib, SourceLocation.NoLocation, []⟩]).length + 1 - 1) =
          Option.some (BufferEntry.file
            ⟨sm.fileDatas.length, lib', SourceLocation.NoLocation, []⟩) := by
        rw [Nat.add_sub_cancel]
        exact List.get?_concat_length _ _
      refine ⟨rfl, (sm.bufferEntries ++
          [BufferEntry.file
            ⟨sm.fileDatas.length, lib, SourceLocation.NoLocation, []⟩]).length + 1, rfl,
        by simp only [List.length_append, List.length_singleton]; omega, ?_, ?_⟩
      · rw [bufferFileDataIndex_get _ _
            ⟨sm.fileDatas.length, lib', SourceLocation.NoLocation, []⟩
            (by simp only [List.length_append, List.length_singleton]; omega) hgb2,
          bufferFileDataIndex_get _ _
            ⟨sm.fileDatas.length, lib, SourceLocation.NoLocation, []⟩
            (by omega) hgb1]
      · rw [bufferFileDataIndex_get _ _
            ⟨sm.fileDatas.length, lib', SourceLocation.NoLocation, []⟩
            (by simp only [List.length_append, List.length_singleton]; omega) hgb2]
        rfl
    | none =>
      rw [readSource_cache_miss_absent sm fs p lib hc hf] at h1
      exact Option.noConfusion h1

/-- Witness for the amended C3 on the concrete sample file system. -/
theorem claim_C3_witness :
    (SourceManager.empty.readSource fsSample "/a.sv" Option.none).buffer = Option.some 1 ∧
    (((SourceManager.empty.readSource fsSample "/a.sv" Option.none).sm.readSource fsSample
        "/a.sv" Option.none).diskReads = 0 ∧
     ∃ b2, ((SourceManager.empty.readSource fsSample "/a.sv" Option.none).sm.readSource
         fsSample "/a.sv" Option.none).buffer = Option.some b2 ∧
       1 < b2 ∧
       ((SourceManager.empty.readSource fsSample "/a.sv" Option.none).sm.readSource fsSample
           "/a.sv" Option.none).sm.bufferFileDataIndex b2
         = ((SourceManager.empty.readSource fsSample "/a.sv" Option.none).sm.readSource
             fsSample "/a.sv" Option.none).sm.bufferFileDataIndex 1 ∧
       (((SourceManager.empty.readSource fsSample "/a.sv" Option.none).sm.readSource fsSample
           "/a.sv" Option.none).sm.bufferFileDataIndex b2).isSome = true) :=
  ⟨by decide,
   claim_C3_second_load_cached_filedata SourceManager.empty fsSample "/a.sv"
     Option.none Option.none 1 (by decide)⟩

/-- C5: every successful file load, in-memory text assignment, or
expansion-entry creation appends exactly one entry to the registry and
returns the fresh BufferID `registry length + 1` — monotonically handed out
and strictly greater than every previously issued id, hence never reused —
while every previously live registry entry is preserved unchanged, so no
entry is ever removed. -/
theorem claim_C5_fresh_monotonic_buffer_ids (sm : SourceManager) (fs : FileSystem)
    (p path : String) (text : List Char) (incFrom o : SourceLocation) (r : SourceRange)
    (arg : Bool) (n : String) (lib : Option Nat) (b : Nat)
    (hload : (sm.readSource fs p lib).buffer = Option.some b) :
    (b = sm.bufferEntries.length + 1 ∧
     (sm.readSource fs p lib).sm.bufferEntries.length = sm.bufferEntries.length + 1 ∧
     ∀ i, i < sm.bufferEntries.length →
       (sm.readSource fs p lib).sm.bufferEntries.get? i = sm.bufferEntries.get? i) ∧
    ((sm.assignText path text incFrom lib).2 = sm.bufferEntries.length + 1 ∧
     (sm.assignText path text incFrom lib).1.bufferEntries.length
       = sm.bufferEntries.length + 1 ∧
     ∀ i, i < sm.bufferEntries.length →
       (sm.assignText path text incFrom lib).1.bufferEntries.get? i
         = sm.bufferEntries.get? i) ∧
    ((sm.createExpansionLoc o r arg n).2.buffer = sm.bufferEntries.length + 1 ∧
     (sm.createExpansionLoc o r arg n).1.bufferEntries.length
       = sm.bufferEntries.length + 1 ∧
     ∀ i, i < sm.bufferEntries.length →
       (sm.createExpansionLoc o r arg n).1.bufferEntries.get? i
         = sm.bufferEntries.get? i) := by
  refine ⟨?_, ?_, ?_⟩
  · cases hc : lookupAssoc sm.lookupCache p with
    | some idx =>
      rw [readSource_cache_hit sm fs p lib idx hc] at hload ⊢
      have h' : Option.some (sm.bufferEntries.length + 1) = Option.some b := hload
      injection h' with h'
      exact ⟨h'.symm, by simp, fun i hi => List.get?_append hi⟩
    | none =>
      cases hf : fs.readFile p with
      | some contents =>
        rw [readSource_cache_miss_found sm fs p lib contents hc hf] at hload ⊢
        have h' : Option.some (sm.bufferEntries.length + 1) = Option.some b := hload
        injection h' with h'
        exact ⟨h'.symm, by simp, fun i hi => List.get?_append hi⟩
      | none =>
        rw [readSource_cache_miss_absent sm fs p lib hc hf] at hload
        exact Option.noConfusion hload
  · unfold SourceManager.assignText SourceManager.createBufferEntry
    exact ⟨rfl, by simp, fun i hi => List.get?_append hi⟩
  · unfold SourceManager.createExpansionLoc SourceManager.createBufferEntry
    exact ⟨rfl, by simp, fun i hi => List.get?_append hi⟩

/-- Witness for C5 on the empty manager and the concrete sample file
system. -/
theorem claim_C5_witness :
    (SourceManager.empty.readSource fsSample "/a.sv" Option.none).buffer = Option.some 1 ∧
    ((1 = SourceManager.empty.bufferEntries.length + 1 ∧
      (SourceManager.empty.readSource fsSample "/a.sv" Option.none).sm.bufferEntries.length
        = SourceManager.empty.bufferEntries.length + 1 ∧
      ∀ i, i < SourceManager.empty.bufferEntries.length →
        (SourceManager.empty.readSource fsSample "/a.sv"
            Option.none).sm.bufferEntries.get? i
          = SourceManager.empty.bufferEntries.get? i) ∧
     ((SourceManager.empty.assignText "<t>" ['x'] SourceLocation.NoLocation Option.none).2
        = SourceManager.empty.bufferEntries.length + 1 ∧
      (SourceManager.empty.assignText "<t>" ['x'] SourceLocation.NoLocation
          Option.none).1.bufferEntries.length
        = SourceManager.empty.bufferEntries.length + 1 ∧
      ∀ i, i < SourceManager.empty.bufferEntries.length →
        (SourceManager.empty.assignText "<t>" ['x'] SourceLocation.NoLocation
            Option.none).1.bufferEntries.get? i
          = SourceManager.empty.bufferEntries.get? i) ∧
     ((SourceManager.empty.createExpansionLoc ⟨1, 0⟩ ⟨⟨1, 0⟩, ⟨1, 1⟩⟩ false "M").2.buffer
        = SourceManager.empty.bufferEntries.length + 1 ∧
      (SourceManager.empty.createExpansionLoc ⟨1, 0⟩ ⟨⟨1, 0⟩, ⟨1, 1⟩⟩ false
          "M").1.bufferEntries.length
        = SourceManager.empty.bufferEntries.length + 1 ∧
      ∀ i, i < SourceManager.empty.bufferEntries.length →
        (SourceManager.empty.createExpansionLoc ⟨1, 0⟩ ⟨⟨1, 0⟩, ⟨1, 1⟩⟩ false
            "M").1.bufferEntries.get? i
          = SourceManager.empty.bufferEntries.get? i)) :=
  ⟨by decide,
   claim_C5_fresh_monotonic_buffer_ids SourceManager.empty fsSample "/a.sv" "<t>" ['x']
     SourceLocation.NoLocation ⟨1, 0⟩ ⟨⟨1, 0⟩, ⟨1, 1⟩⟩ false "M" Option.none 1 (by decide)⟩

/-! ## Claim C4 -/

theorem searchDirs_cons (fs : FileSystem) (name d : String) (rest : List String) :
    searchDirs fs name (d :: rest) =
      if fs.fileExists (joinPath d name) then Option.some (joinPath d name)
      else searchDirs fs name rest := rfl

theorem searchDirs_eq_find (fs : FileSystem) (name : String) (dirs : List String) :
    searchDirs fs name dirs =
      (dirs.find? fun d => fs.fileExists (joinPath d name)).map fun d => joinPath d name := by
  induction dirs with
  | nil => rfl
  | cons d rest ih =>
    rw [searchDirs_cons]
    simp only [List.find?]
    by_cases hd : fs.fileExists (joinPath d name) = true
    · rw [if_pos hd, hd]
      rfl
    · have hd' : fs.fileExists (joinPath d name) = false := by simpa using hd
      rw [if_neg hd, hd', ih]

theorem searchDirs_append (fs : FileSystem) (name : String) (l1 l2 : List String) :
    searchDirs fs name (l1 ++ l2) =
      match searchDirs fs name l1 with
      | Option.some x => Option.some x
      | Option.none => searchDirs fs name l2 := by
  induction l1 with
  | nil => rfl
  | cons d rest ih =>
    rw [List.cons_append, searchDirs_cons, searchDirs_cons]
    by_cases hd : fs.fileExists (joinPath d name) = true
    · rw [if_pos hd, if_pos hd]
    · rw [if_neg hd, if_neg hd, ih]

theorem openCached_success_of_exists (sm : SourceManager) (fs : FileSystem) (pth : String)
    (incFrom : SourceLocation) (lib : Option Nat) (hex : fs.fileExists pth = true) :
    (sm.openCached fs pth incFrom lib).buffer =
      Option.some (sm.bufferEntries.length + 1) := by
  unfold SourceManager.openCached SourceManager.createBufferEntry
  cases hcc : lookupAssoc sm.lookupCache pth with
  | some idx => rfl
  | none =>
    unfold FileSystem.fileExists at hex
    unfold FileSystem.readFile
    cases hr : lookupAssoc fs.files pth with
    | none => rw [hr] at hex; exact absurd hex (by simp)
    | some contents => rfl

/-- C4: the resolution step of `readHeader` tries, in order, first each
directory of the extra include-path list, then the system list when
`isSystemPath` is set and otherwise the user list, in registration order; it
returns the joined path within the first directory containing the header, it
fails exactly when no directory in that order contains the header, and
`readHeader` itself returns an error exactly when resolution fails (only
after all directories have been tried). -/
theorem claim_C4_header_search_order (sm : SourceManager) (fs : FileSystem) (name : String)
    (incFrom : SourceLocation) (lib : Option Nat) (isSystemPath : Bool)
    (extraDirs : List String) :
    (sm.findHeaderPath fs name isSystemPath extraDirs =
      ((extraDirs ++
          (if isSystemPath then sm.systemDirectories else sm.userDirectories)).find?
        fun d => fs.fileExists (joinPath d name)).map fun d => joinPath d name) ∧
    (sm.findHeaderPath fs name isSystemPath extraDirs = Option.none ↔
      ∀ d ∈ extraDirs ++
          (if isSystemPath then sm.systemDirectories else sm.userDirectories),
        fs.fileExists (joinPath d name) = false) ∧
    ((sm.readHeader fs name incFrom lib isSystemPath extraDirs).buffer = Option.none ↔
      sm.findHeaderPath fs name isSystemPath extraDirs = Option.none) := by
  have hmain : sm.findHeaderPath fs name isSystemPath extraDirs =
      ((extraDirs ++
          (if isSystemPath then sm.systemDirectories else sm.userDirectories)).find?
        fun d => fs.fileExists (joinPath d name)).map fun d => joinPath d name := by
    have h := searchDirs_append fs name extraDirs
      (if isSystemPath then sm.systemDirectories else sm.userDirectories)
    unfold SourceManager.findHeaderPath
    rw [← h, searchDirs_eq_find]
  refine ⟨hmain, ?_, ?_⟩
  · rw [hmain]
    constructor
    · intro hnone d hd
      have : (extraDirs ++
          (if isSystemPath then sm.systemDirectories else sm.userDirectories)).find?
          (fun d => fs.fileExists (joinPath d name)) = Option.none := by
        cases hq : (extraDirs ++
            (if isSystemPath then sm.systemDirectories else sm.userDirectories)).find?
            (fun d => fs.fileExists (joinPath d name)) with
        | none => rfl
        | some x => rw [hq] at hnone; exact Option.noConfusion hnone
      have hall := List.find?_eq_none.mp this d hd
      simpa using hall
    · intro hall
      rw [List.find?_eq_none.mpr (by intro x hx; simp [hall x hx])]
      rfl
  · unfold SourceManager.readHeader
    cases hfp : sm.findHeaderPath fs name isSystemPath extraDirs with
    | none => simp
    | some pth =>
      have hex : fs.fileExists pth = true := by
        rw [hmain] at hfp
        cases hq : (extraDirs ++
            (if isSystemPath then sm.systemDirectories else sm.userDirectories)).find?
            (fun d => fs.fileExists (joinPath d name)) with
        | none => rw [hq] at hfp; exact Option.noConfusion hfp
        | some d =>
          rw [hq] at hfp
          have hpd : joinPath d name = pth := by
            injection hfp
          have hpa := List.find?_some hq
          rw [← hpd]
          exact hpa
      rw [openCached_success_of_exists sm fs pth incFrom lib hex]
      simp

/-- Witness for C4 on the concrete sample file system: a quoted include of
`foo.svh` resolves through the registered user directory `/inc`, and a
system-style include fails because no system directory is registered. -/
theorem claim_C4_witness :
    (smDirs.findHeaderPath fsSample "foo.svh" false [] =
      (([] ++ (if false then smDirs.systemDirectories else smDirs.userDirectories)).find?
        fun d => fsSample.fileExists (joinPath d "foo.svh")).map
        (fun d => joinPath d "foo.svh")) ∧
    (smDirs.findHeaderPath fsSample "foo.svh" false [] = Option.none ↔
      ∀ d ∈ [] ++ (if false then smDirs.systemDirectories else smDirs.userDirectories),
        fsSample.fileExists (joinPath d "foo.svh") = false) ∧
    ((smDirs.readHeader fsSample "foo.svh" SourceLocation.NoLocation Option.none false
        []).buffer = Option.none ↔
      smDirs.findHeaderPath fsSample "foo.svh" false [] = Option.none) :=
  claim_C4_header_search_order smDirs fsSample "foo.svh" SourceLocation.NoLocation
    Option.none false []

/-! ## Claim C7 -/

theorem addDirectoriesImpl_error_iff (fs : FileSystem) (pattern : String)
    (dirs : List String) :
    (∃ e, addDirectoriesImpl fs pattern dirs = Except.error e) ↔
      (hasWildcards pattern = false ∧ fs.dirs.contains pattern = false) := by
  unfold addDirectoriesImpl
  by_cases hw : hasWildcards pattern = true
  · rw [if_pos hw]
    constructor
    · rintro ⟨e, he⟩
      exact Except.noConfusion he
    · rintro ⟨hfalse, -⟩
      rw [hw] at hfalse
      exact Bool.noConfusion hfalse
  · have hw' : hasWildcards pattern = false := by simpa using hw
    rw [if_neg hw]
    by_cases hc : fs.dirs.contains pattern = true
    · rw [if_pos hc]
      constructor
      · rintro ⟨e, he⟩
        exact Except.noConfusion he
      · rintro ⟨-, hfalse⟩
        rw [hc] at hfalse
        exact Bool.noConfusion hfalse
    · have hc' : fs.dirs.contains pattern = false := by simpa using hc
      rw [if_neg hc]
      constructor
      · intro _
        exact ⟨hw', hc'⟩
      · intro _
        exact ⟨_, rfl⟩

/-- C7: `addSystemDirectories` and `addUserDirectories` return an error
exactly when the pattern is an exact (non-wildcard) path that does not name
an existing directory; a glob-style pattern matching no directory succeeds
and contributes zero directories; and re-registering an already-registered
exact directory succeeds and leaves the ordered directory list — hence the
directory's first-registration position — unchanged. -/
theorem claim_C7_directory_registration (sm : SourceManager) (fs : FileSystem)
    (pattern : String) :
    ((∃ e, sm.addSystemDirectories fs pattern = Except.error e) ↔
      (hasWildcards pattern = false ∧ fs.dirs.contains pattern = false)) ∧
    ((∃ e, sm.addUserDirectories fs pattern = Except.error e) ↔
      (hasWildcards pattern = false ∧ fs.dirs.contains pattern = false)) ∧
    (hasWildcards pattern = true →
      (fs.dirs.filter fun d => globMatch pattern.toList d.toList) = [] →
      sm.addSystemDirectories fs pattern = Except.ok sm ∧
      sm.addUserDirectories fs pattern = Except.ok sm) ∧
    (hasWildcards pattern = false → fs.dirs.contains pattern = true →
      pattern ∈ sm.systemDirectories →
      sm.addSystemDirectories fs pattern = Except.ok sm) ∧
    (hasWildcards pattern = false → fs.dirs.contains pattern = true →
      pattern ∈ sm.userDirectories →
      sm.addUserDirectories fs pattern = Except.ok sm) := by
  refine ⟨?_, ?_, ?_, ?_, ?_⟩
  · unfold SourceManager.addSystemDirectories
    cases hi : addDirectoriesImpl fs pattern sm.systemDirectories with
    | ok dirs =>
      rw [← addDirectoriesImpl_error_iff fs pattern sm.systemDirectories]
      simp [hi]
    | error e =>
      rw [← addDirectoriesImpl_error_iff fs pattern sm.systemDirectories]
      simp [hi]
  · unfold SourceManager.addUserDirectories
    cases hi : addDirectoriesImpl fs pattern sm.userDirectories with
    | ok dirs =>
      rw [← addDirectoriesImpl_error_iff fs pattern sm.userDirectories]
      simp [hi]
    | error e =>
      rw [← addDirectoriesImpl_error_iff fs pattern sm.userDirectories]
      simp [hi]
  · intro hw hempty
    have hsys : addDirectoriesImpl fs pattern sm.systemDirectories =
        Except.ok sm.systemDirectories := by
      unfold addDirectoriesImpl
      rw [if_pos hw, hempty]
      rfl
    have husr : addDirectoriesImpl fs pattern sm.userDirectories =
        Except.ok sm.userDirectories := by
      unfold addDirectoriesImpl
      rw [if_pos hw, hempty]
      rfl
    constructor
    · unfold SourceManager.addSystemDirectories
      rw [hsys]
    · unfold SourceManager.addUserDirectories
      rw [husr]
  · intro hw hc hmem
    have himpl : addDirectoriesImpl fs pattern sm.systemDirectories =
        Except.ok sm.systemDirectories := by
      unfold addDirectoriesImpl addDirectory
      rw [if_neg (by rw [hw]; exact Bool.false_ne_true), if_pos hc, if_pos hmem]
    unfold SourceManager.addSystemDirectories
    rw [himpl]
  · intro hw hc hmem
    have himpl : addDirectoriesImpl fs pattern sm.userDirectories =
        Except.ok sm.userDirectories := by
      unfold addDirectoriesImpl addDirectory
      rw [if_neg (by rw [hw]; exact Bool.false_ne_true), if_pos hc, if_pos hmem]
    unfold SourceManager.addUserDirectories
    rw [himpl]

/-- Witness for C7 at a concrete failing exact path: `/nope` has no wildcard
and is not a directory of the sample file system, so registration errors;
the other conjuncts are instantiated alongside. -/
theorem claim_C7_witness :
    ((∃ e, smFile.addSystemDirectories fsSample "/nope" = Except.error e) ↔
      (hasWildcards "/nope" = false ∧ fsSample.dirs.contains "/nope" = false)) ∧
    ((∃ e, smFile.addUserDirectories fsSample "/nope" = Except.error e) ↔
      (hasWildcards "/nope" = false ∧ fsSample.dirs.contains "/nope" = false)) ∧
    (hasWildcards "/nope" = true →
      (fsSample.dirs.filter fun d => globMatch "/nope".toList d.toList) = [] →
      smFile.addSystemDirectories fsSample "/nope" = Except.ok smFile ∧
      smFile.addUserDirectories fsSample "/nope" = Except.ok smFile) ∧
    (hasWildcards "/nope" = false → fsSample.dirs.contains "/nope" = true →
      "/nope" ∈ smFile.systemDirectories →
      smFile.addSystemDirectories fsSample "/nope" = Except.ok smFile) ∧
    (hasWildcards "/nope" = false → fsSample.dirs.contains "/nope" = true →
      "/nope" ∈ smFile.userDirectories →
      smFile.addUserDirectories fsSample "/nope" = Except.ok smFile) :=
  claim_C7_directory_registration smFile fsSample "/nope"

end Slang
